import Mathlib

/-!
Verification development for the ETL pipeline (`src/etl_pipeline.py`).

The embedding models:
* pandas DataFrames as `Dataset`: an ordered list of column names plus rows of
  values (`Row` is the dict produced by `Series.to_dict`);
* `HybridJoin.hash_join` and `HybridJoin.nested_loop_join`, including the
  KeyError raised when a key column is looked up on a row whose frame lacks it
  (modelled with `Except`), the build/probe side selection, and the Python
  dict merge of the two rows;
* `DataTransformer.generate_date_dimension`, with calendar dates represented
  as day numbers relative to 1970-01-01 and converted with the standard
  civil-calendar algorithms (the content of `pd.date_range` / `Timestamp`
  field accessors);
* `MultithreadedLoader.load_dimension_batch` / `load_fact_batch` /
  `parallel_load`.  The relational store is abstracted by `StoreOutcome`,
  which records whether connect / executemany / commit succeed and the
  row count the store reports.  Worker threads are modelled by mapping the
  batch loader over the batches: `as_completed` delivers the per-batch
  results in an arbitrary order, and the summary aggregates proved here
  (sum of rows loaded, number of failed batches) are invariant under
  permutations of the result list, so batch order is used.
-/

variable {α : Type} [DecidableEq α] {β : Type}

/-- A row dict as produced by `Series.to_dict`: column names paired with
values, in column order. -/
abbrev Row (α : Type) := List (String × α)

/-- A pandas DataFrame: named columns and rows of values.  In a real frame
every row has exactly one value per column (`wfDataset`). -/
structure Dataset (α : Type) where
  cols : List String
  rows : List (List α)

/-- Well-formedness of a DataFrame: distinct column labels, and each row has
one value per column.  Both are automatic for the frames pandas builds. -/
def wfDataset (ds : Dataset α) : Prop :=
  ds.cols.Nodup ∧ ∀ row ∈ ds.rows, row.length = ds.cols.length

instance (ds : Dataset α) : Decidable (wfDataset ds) := by
  unfold wfDataset; infer_instance

/-- `row[key]` on a Series taken from a frame with columns `cols`: find the
column position, then read the row's value there.  `none` corresponds to the
positions where the Python code would raise `KeyError` (the join models that
explicitly from the frame's columns). -/
def rowVal (cols : List String) (vals : List α) (k : String) : Option α :=
  (cols.indexOf? k).bind fun i => vals.get? i

/-- `Series.to_dict()`: pair each column name with the row's value. -/
def toRow (cols : List String) (vals : List α) : Row α := cols.zip vals

/-- One entry of the merged dict `\x7b**d1, **d2\x7d` coming from `d1`: the
key keeps its position but takes `d2`'s value when `d2` also binds it. -/
def mergeEntry (d2 : Row α) (p : String × α) : String × α :=
  match d2.find? (fun q => decide (q.1 = p.1)) with
  | some q => (p.1, q.2)
  | none => p

/-- Python dict merge `\x7b**d1, **d2\x7d`: the keys of `d1` in order, each
taking `d2`'s value when `d2` also has the key, followed by the keys of `d2`
not present in `d1`, in order. -/
def dictMerge (d1 d2 : Row α) : Row α :=
  d1.map (mergeEntry d2) ++ d2.filter fun q => decide (∀ p ∈ d1, p.1 ≠ q.1)

/-- Lookup in a combined-row dict. -/
def dictLookup (d : Row α) (k : String) : Option α :=
  (d.find? fun p => decide (p.1 = k)).map Prod.snd

/-- The common build/probe part of `HybridJoin.hash_join`
(src/etl_pipeline.py lines 117-137), after build- and probe-side selection.
The hash table maps a key value to the list of build rows carrying it, in
build order, so the bucket probed for `key_value` is exactly the filter of
the build rows by key equality.  Iterating the build (resp. probe) rows
raises `KeyError` when the frame lacks the key column and has at least one
row; the error fires before any result is returned. -/
def hash_join_build_probe (build_df probe_df : Dataset α)
    (build_key probe_key : String) (swap : Bool) :
    Except String (List (Row α)) :=
  if build_df.rows ≠ [] ∧ build_key ∉ build_df.cols then
    .error "KeyError"
  else if probe_df.rows ≠ [] ∧ probe_key ∉ probe_df.cols then
    .error "KeyError"
  else
    .ok (probe_df.rows.flatMap fun probe_row =>
      (build_df.rows.filter fun build_row =>
        decide (rowVal build_df.cols build_row build_key =
                rowVal probe_df.cols probe_row probe_key)).map
        fun build_row =>
          if swap then
            dictMerge (toRow probe_df.cols probe_row)
              (toRow build_df.cols build_row)
          else
            dictMerge (toRow build_df.cols build_row)
              (toRow probe_df.cols probe_row))

/-- `HybridJoin.hash_join` (src/etl_pipeline.py lines 85-142).  The smaller
frame becomes the build side (ties go to the left frame); `join_type` is
accepted but, as in the source, never consulted — the body always computes
the inner join. -/
def hash_join (left_df right_df : Dataset α) (left_key right_key : String)
    (join_type : String := "inner") : Except String (List (Row α)) :=
  if left_df.rows.length ≤ right_df.rows.length then
    hash_join_build_probe left_df right_df left_key right_key false
  else
    hash_join_build_probe right_df left_df right_key left_key true

/-- `HybridJoin.nested_loop_join` (src/etl_pipeline.py lines 144-173): full
cross product filtered by the caller's two-row predicate, merging the two
row dicts wherever it holds. -/
def nested_loop_join (left_df right_df : Dataset α)
    (condition_func : Row α → Row α → Bool) : List (Row α) :=
  left_df.rows.flatMap fun left_row =>
    (right_df.rows.filter fun right_row =>
      condition_func (toRow left_df.cols left_row)
        (toRow right_df.cols right_row)).map
      fun right_row =>
        dictMerge (toRow left_df.cols left_row) (toRow right_df.cols right_row)

/-- The brute-force equality predicate on key `k` used by the spec's
reference nested-loop join: two rows join exactly when their `k` entries are
equal.  (Spec-side definition for the refinement claim.) -/
def eqKeyCondition (k : String) : Row α → Row α → Bool :=
  fun lrow rrow => decide (dictLookup lrow k = dictLookup rrow k)

/-! ### Date dimension -/

/-- Civil date from a day number (days since 1970-01-01), the standard
algorithm used by calendar libraries; returns `(year, month, day)`. -/
def civilFromDays (z0 : Int) : Int × Int × Int :=
  let z := z0 + 719468
  let era := (if z ≥ 0 then z else z - 146096) / 146097
  let doe := z - era * 146097
  let yoe := (doe - doe / 1460 + doe / 36524 - doe / 146096) / 365
  let y := yoe + era * 400
  let doy := doe - (365 * yoe + yoe / 4 - yoe / 100)
  let mp := (5 * doy + 2) / 153
  let d := doy - (153 * mp + 2) / 5 + 1
  let m := mp + (if mp < 10 then 3 else -9)
  (y + (if m ≤ 2 then 1 else 0), m, d)

/-- Day number (days since 1970-01-01) of a civil date. -/
def daysFromCivil (y0 m d : Int) : Int :=
  let y := y0 - (if m ≤ 2 then 1 else 0)
  let era := (if y ≥ 0 then y else y - 399) / 400
  let yoe := y - era * 400
  let doy := (153 * (m + (if m > 2 then -3 else 9)) + 2) / 5 + d - 1
  let doe := yoe * 365 + yoe / 4 - yoe / 100 + doy
  era * 146097 + doe - 719468

/-- `Timestamp.dayofweek`: Monday = 0 … Sunday = 6.  Day 0 (1970-01-01) was
a Thursday. -/
def dayOfWeek (z : Int) : Int := (z + 3) % 7

/-- `Timestamp.strftime` month name. -/
def month_name (m : Int) : String :=
  if m = 1 then "January" else if m = 2 then "February"
  else if m = 3 then "March" else if m = 4 then "April"
  else if m = 5 then "May" else if m = 6 then "June"
  else if m = 7 then "July" else if m = 8 then "August"
  else if m = 9 then "September" else if m = 10 then "October"
  else if m = 11 then "November" else if m = 12 then "December" else ""

/-- One record of the date dimension (the dict built at
src/etl_pipeline.py lines 269-279).  `Full_Date` is the day number. -/
structure DateRow where
  Date_ID : Nat
  Full_Date : Int
  Day : Int
  Month : Int
  Month_Name : String
  Quarter : String
  Year : Int
  Weekday_Weekend : String
  Season : String
deriving DecidableEq

/-- `DataTransformer.generate_date_dimension`
(src/etl_pipeline.py lines 238-283): one record per day of the inclusive
range (`pd.date_range`, empty when start exceeds end), enumerated from 1,
with season from the month, weekend flag from the day of week, quarter and
month name derived fields. -/
def generate_date_dimension (start_date end_date : Int) : List DateRow :=
  (List.range (end_date + 1 - start_date).toNat).map fun (i : Nat) =>
    let z := start_date + (i : Int)
    match civilFromDays z with
    | (y, m, d) =>
      { Date_ID := i + 1
        Full_Date := z
        Day := d
        Month := m
        Month_Name := month_name m
        Quarter := "Q" ++ toString ((m - 1).fdiv 3 + 1)
        Year := y
        Weekday_Weekend := if dayOfWeek z ≥ 5 then "Weekend" else "Weekday"
        Season :=
          if m = 12 ∨ m = 1 ∨ m = 2 then "Winter"
          else if m = 3 ∨ m = 4 ∨ m = 5 then "Spring"
          else if m = 6 ∨ m = 7 ∨ m = 8 then "Summer"
          else "Fall" }

/-! ### Concurrent batch loader -/

/-- Behavior of the relational store for one batch-load call: whether
connect, executemany and commit succeed (with the error text when not), and
the row count the cursor reports after a successful executemany. -/
structure StoreOutcome where
  connectErr : Option String
  executeErr : Option String
  commitErr : Option String
  rowcount : Int
deriving DecidableEq

/-- The result dict returned by the batch loaders. -/
structure LoadResult where
  thread_id : Nat
  table : String
  rows_loaded : Int
  status : String
  error : Option String
deriving DecidableEq

/-- Table names for which `load_dimension_batch` prepares a statement; any
other name leaves `sql` unbound and `executemany` raises. -/
def dimension_tables : List String :=
  ["Customer_Dim", "Store_Dim", "Supplier_Dim", "Product_Dim", "Date_Dim"]

/-- `MultithreadedLoader.load_dimension_batch`
(src/etl_pipeline.py lines 295-401).  The batch rows only feed the
parameterized statement, which the store abstraction absorbs, so they do not
appear.  Returns the result dict together with a flag recording whether the
call acquired a connection it never closed: the success path closes the
connection, the `except` path returns without closing it. -/
def load_dimension_batch (store : StoreOutcome) (table_name : String)
    (thread_id : Nat) : LoadResult × Bool :=
  match store.connectErr with
  | some e =>
    ({ thread_id, table := table_name, rows_loaded := 0,
       status := "failed", error := some e }, false)
  | none =>
    if table_name ∉ dimension_tables then
      ({ thread_id, table := table_name, rows_loaded := 0,
         status := "failed",
         error := some "NameError: sql is not defined" }, true)
    else
      match store.executeErr with
      | some e =>
        ({ thread_id, table := table_name, rows_loaded := 0,
           status := "failed", error := some e }, true)
      | none =>
        match store.commitErr with
        | some e =>
          ({ thread_id, table := table_name, rows_loaded := 0,
             status := "failed", error := some e }, true)
        | none =>
          ({ thread_id, table := table_name, rows_loaded := store.rowcount,
             status := "success", error := none }, false)

/-- `MultithreadedLoader.load_fact_batch` (src/etl_pipeline.py lines
403-457): same shape without the per-table statement dispatch. -/
def load_fact_batch (store : StoreOutcome) (thread_id : Nat) :
    LoadResult × Bool :=
  match store.connectErr with
  | some e =>
    ({ thread_id, table := "Sales_Fact", rows_loaded := 0,
       status := "failed", error := some e }, false)
  | none =>
    match store.executeErr with
    | some e =>
      ({ thread_id, table := "Sales_Fact", rows_loaded := 0,
         status := "failed", error := some e }, true)
    | none =>
      match store.commitErr with
      | some e =>
        ({ thread_id, table := "Sales_Fact", rows_loaded := 0,
           status := "failed", error := some e }, true)
      | none =>
        ({ thread_id, table := "Sales_Fact", rows_loaded := store.rowcount,
           status := "success", error := none }, false)

/-- The batch split of `MultithreadedLoader.parallel_load`
(src/etl_pipeline.py line 471):
`[data[i:i+batch_size] for i in range(0, len(data), batch_size)]`,
with the slice starts `0, batch_size, 2*batch_size, …` enumerated by their
index.  (`range(0, n, s)` has `⌈n/s⌉` elements for `s > 0`.) -/
def split_batches (data : List β) (batch_size : Nat) : List (List β) :=
  (List.range ((data.length + batch_size - 1) / batch_size)).map
    fun i => (data.drop (i * batch_size)).take batch_size

/-- `MultithreadedLoader.parallel_load` (src/etl_pipeline.py lines 459-494).
`prior` is the loader's `self.results` list at entry (it is never cleared,
so it accumulates across invocations); `outcomes i` is the store's behavior
for batch `i`.  Returns the final results list together with the summary the
function logs: total rows loaded and the number of failed batches, both
computed over the whole results list. -/
def parallel_load (prior : List LoadResult) (table_name : String)
    (data : List β) (batch_size : Nat) (outcomes : Nat → StoreOutcome) :
    List LoadResult × Int × Nat :=
  let batches := split_batches data batch_size
  let results := prior ++ batches.enum.map fun ib =>
    if table_name = "Sales_Fact" then (load_fact_batch (outcomes ib.1) ib.1).1
    else (load_dimension_batch (outcomes ib.1) table_name ib.1).1
  (results,
   (results.map fun res => res.rows_loaded).sum,
   results.countP fun res => decide (res.status = "failed"))

/-! ## Helper lemmas on rows and dict merging -/

theorem mergeEntry_fst (d2 : Row α) (p : String × α) :
    (mergeEntry d2 p).1 = p.1 := by
  unfold mergeEntry
  cases d2.find? (fun q => decide (q.1 = p.1)) <;> rfl

/-- Looking a key up in `Series.to_dict` agrees with the positional Series
lookup. -/
theorem dictLookup_toRow (cols : List String) (vals : List α) (k : String) :
    dictLookup (toRow cols vals) k = rowVal cols vals k := by
  induction cols generalizing vals with
  | nil => simp [dictLookup, toRow, rowVal, List.indexOf?]
  | cons c cs ih =>
    cases vals with
    | nil =>
      simp only [dictLookup, toRow, List.zip_nil_right, List.find?_nil,
        Option.map_none', rowVal]
      cases h : (c :: cs).indexOf? k <;> simp [h]
    | cons v vs =>
      have h2 := ih vs
      simp only [dictLookup, toRow, rowVal, List.indexOf?] at h2 ⊢
      rw [List.zip_cons_cons]
      by_cases hc : c = k
      · subst hc
        rw [List.find?_cons_of_pos _ (by simp), List.findIdx?_cons]
        simp
      · rw [List.find?_cons_of_neg _ (by simp [hc]), List.findIdx?_cons]
        have hck : (c == k) = false := by simp [hc]
        rw [hck, if_neg (by simp), List.findIdx?_succ, h2]
        cases h : cs.findIdx? (fun x => x == k) <;> simp [h]

theorem map_fst_filter_key (d : Row α) (g : String → Bool) :
    (d.filter fun q => g q.1).map Prod.fst = (d.map Prod.fst).filter g := by
  induction d with
  | nil => simp
  | cons q d ih => by_cases h : g q.1 <;> simp [h, ih]

theorem toRow_keys (cols : List String) (vals : List α)
    (h : vals.length = cols.length) : (toRow cols vals).map Prod.fst = cols :=
  List.map_fst_zip cols vals h.ge

/-- The merged dict lists the left dict's keys first, then the right dict's
keys that the left dict does not bind. -/
theorem dictMerge_keys (d1 d2 : Row α) :
    (dictMerge d1 d2).map Prod.fst =
      d1.map Prod.fst ++
        (d2.map Prod.fst).filter fun c => decide (c ∉ d1.map Prod.fst) := by
  unfold dictMerge
  rw [List.map_append]
  congr 1
  · rw [List.map_map]
    exact List.map_congr_left fun p _ => mergeEntry_fst d2 p
  · rw [map_fst_filter_key d2 fun c => decide (∀ p ∈ d1, p.1 ≠ c)]
    apply List.filter_congr
    intro c _
    apply decide_eq_decide.mpr
    constructor
    · intro hall hmem
      obtain ⟨p, hp, hpc⟩ := List.mem_map.mp hmem
      exact hall p hp hpc
    · intro hn p hp hpc
      exact hn (List.mem_map.mpr ⟨p, hp, hpc⟩)

theorem find?_filter_of_imp {γ : Type} (l : List γ) (p Q : γ → Bool)
    (h : ∀ x, p x = true → Q x = true) :
    (l.filter Q).find? p = l.find? p := by
  induction l with
  | nil => simp
  | cons a l ih =>
    by_cases hQ : Q a = true
    · rw [List.filter_cons_of_pos hQ]
      by_cases hp : p a = true
      · rw [List.find?_cons_of_pos _ hp, List.find?_cons_of_pos _ hp]
      · rw [List.find?_cons_of_neg _ (by simp [hp]),
          List.find?_cons_of_neg _ (by simp [hp]), ih]
    · have hp : ¬ p a = true := fun hpa => hQ (h a hpa)
      rw [List.filter_cons_of_neg (by simp [hQ]),
        List.find?_cons_of_neg _ (by simp [hp]), ih]

theorem find?_map_mergeEntry (d2 : Row α) (k : String) (q0 : String × α)
    (hq0 : d2.find? (fun q => decide (q.1 = k)) = some q0) (d1 : Row α) :
    k ∈ d1.map Prod.fst →
      (d1.map (mergeEntry d2)).find? (fun p => decide (p.1 = k)) =
        some (k, q0.2) := by
  induction d1 with
  | nil => simp
  | cons p d1 ih =>
    intro hk
    rw [List.map_cons] at hk
    rw [List.map_cons]
    by_cases hp : p.1 = k
    · rw [List.find?_cons_of_pos _ (by simp [mergeEntry_fst, hp])]
      simp only [mergeEntry, hp, hq0]
    · rw [List.find?_cons_of_neg _ (by simp [mergeEntry_fst, hp])]
      apply ih
      rcases List.mem_cons.mp hk with h | h
      · exact absurd h.symm hp
      · exact h

/-- Looking up a key bound by the right dict in the merged dict gives the
right dict's value: the merge is right-biased. -/
theorem dictLookup_dictMerge_right (d1 d2 : Row α) (k : String)
    (h : k ∈ d2.map Prod.fst) :
    dictLookup (dictMerge d1 d2) k = dictLookup d2 k := by
  obtain ⟨q0, hq0⟩ : ∃ q0, d2.find? (fun q => decide (q.1 = k)) = some q0 := by
    rw [← Option.isSome_iff_exists, List.find?_isSome]
    obtain ⟨q, hq, hqk⟩ := List.mem_map.mp h
    exact ⟨q, hq, by simp [hqk]⟩
  unfold dictMerge dictLookup
  rw [List.find?_append]
  by_cases h1 : k ∈ d1.map Prod.fst
  · rw [find?_map_mergeEntry d2 k q0 hq0 d1 h1]
    simp [hq0]
  · have hnone : (d1.map (mergeEntry d2)).find?
        (fun p => decide (p.1 = k)) = none := by
      rw [List.find?_eq_none]
      intro x hx
      obtain ⟨p, hp, rfl⟩ := List.mem_map.mp hx
      simp only [mergeEntry_fst, decide_eq_true_eq]
      intro hpk
      exact h1 (List.mem_map.mpr ⟨p, hp, hpk⟩)
    have himp : ∀ x : String × α, (fun q => decide (q.1 = k)) x = true →
        (fun q => decide (∀ p ∈ d1, p.1 ≠ q.1)) x = true := by
      intro q hqk
      simp only [decide_eq_true_eq] at hqk ⊢
      intro p hp hpq
      exact h1 (List.mem_map.mpr ⟨p, hp, hpq.trans hqk⟩)
    rw [hnone, Option.none_or, find?_filter_of_imp d2 _ _ himp]

/-! ## Multiset reshuffling: the probe loop visits the same joined pairs as
the nested loop, in a different order -/

theorem filter_map_eq_flatMap {γ δ : Type} (xs : List γ) (p : γ → Bool)
    (f : γ → δ) :
    (xs.filter p).map f = xs.flatMap fun x => if p x then [f x] else [] := by
  induction xs with
  | nil => simp
  | cons x xs ih => by_cases h : p x <;> simp [h, ih]

theorem coe_flatMap_ite {γ δ ρ : Type} (us : List γ) (vs : List δ)
    (Q : γ → δ → Bool) (g : γ → δ → ρ) :
    (↑(us.flatMap fun b => vs.flatMap fun c => if Q b c then [g b c] else []) :
        Multiset ρ) =
      Multiset.bind (↑us) fun b => Multiset.bind (↑vs) fun c =>
        if Q b c then {g b c} else 0 := by
  rw [← Multiset.coe_bind]
  apply Multiset.bind_congr
  intro b _
  rw [← Multiset.coe_bind]
  apply Multiset.bind_congr
  intro c _
  by_cases h : Q b c <;> simp [h]

/-- Iterating rows of `bs` against matching rows of `cs` produces the same
multiset of outputs as iterating `cs` against matching rows of `bs`. -/
theorem flatMap_filter_swap {γ δ ρ : Type} (bs : List γ) (cs : List δ)
    (P : γ → δ → Bool) (f : γ → δ → ρ) :
    (↑(bs.flatMap fun b => (cs.filter fun c => P b c).map fun c => f b c) :
        Multiset ρ) =
      ↑(cs.flatMap fun c => (bs.filter fun b => P b c).map fun b => f b c) := by
  simp only [filter_map_eq_flatMap]
  rw [coe_flatMap_ite bs cs P f,
    coe_flatMap_ite cs bs (fun c b => P b c) (fun c b => f b c)]
  exact Multiset.bind_bind (bs : Multiset γ) (cs : Multiset δ)

/-! ## Structure of the hash-join output -/

/-- With both key columns present the hash join succeeds, producing the
per-probe-row bucket expansions of whichever side was chosen for probing. -/
theorem hash_join_ok_of_keys (l r : Dataset α) (lk rk jt : String)
    (hkl : lk ∈ l.cols) (hkr : rk ∈ r.cols) :
    hash_join l r lk rk jt =
      .ok (if l.rows.length ≤ r.rows.length then
        r.rows.flatMap fun p => (l.rows.filter fun b =>
          decide (rowVal l.cols b lk = rowVal r.cols p rk)).map fun b =>
            dictMerge (toRow l.cols b) (toRow r.cols p)
      else
        l.rows.flatMap fun p => (r.rows.filter fun b =>
          decide (rowVal r.cols b rk = rowVal l.cols p lk)).map fun b =>
            dictMerge (toRow l.cols p) (toRow r.cols b)) := by
  by_cases hsz : l.rows.length ≤ r.rows.length <;>
    simp [hash_join, hash_join_build_probe, hkl, hkr, hsz]

/-- Shared content of the refinement claim: the hash join and the
brute-force nested-loop equality join agree as multisets of combined rows. -/
theorem hash_join_multiset_eq_nested (l r : Dataset α) (k : String)
    (hkl : k ∈ l.cols) (hkr : k ∈ r.cols) :
    ∃ res, hash_join l r k k = .ok res ∧
      (↑res : Multiset (Row α)) =
        ↑(nested_loop_join l r (eqKeyCondition k)) := by
  refine ⟨_, hash_join_ok_of_keys l r k k "inner" hkl hkr, ?_⟩
  unfold nested_loop_join
  by_cases hsz : l.rows.length ≤ r.rows.length
  · rw [if_pos hsz,
      flatMap_filter_swap r.rows l.rows
        (fun p b => decide (rowVal l.cols b k = rowVal r.cols p k))
        (fun p b => dictMerge (toRow l.cols b) (toRow r.cols p))]
    congr 1
    apply List.flatMap_congr
    intro b _
    congr 1
    apply List.filter_congr
    intro p _
    simp only [eqKeyCondition, dictLookup_toRow]
  · rw [if_neg hsz]
    congr 1
    apply List.flatMap_congr
    intro p _
    congr 1
    apply List.filter_congr
    intro b _
    simp only [eqKeyCondition, dictLookup_toRow]
    exact decide_eq_decide.mpr eq_comm

/-- Every row emitted by the hash join is the Python dict merge of a left
row's dict with a right row's dict, left first — whichever side was chosen
for building. -/
theorem hash_join_mem (l r : Dataset α) (lk rk jt : String)
    (res : List (Row α)) (hok : hash_join l r lk rk jt = .ok res)
    (row : Row α) (hrow : row ∈ res) :
    ∃ p ∈ l.rows, ∃ q ∈ r.rows,
      row = dictMerge (toRow l.cols p) (toRow r.cols q) := by
  unfold hash_join hash_join_build_probe at hok
  split at hok
  · split at hok
    · simp at hok
    · split at hok
      · simp at hok
      · simp only [Except.ok.injEq] at hok
        subst hok
        obtain ⟨prow, hp, hm⟩ := List.mem_flatMap.mp hrow
        obtain ⟨brow, hb, heq⟩ := List.mem_map.mp hm
        have hb' := (List.mem_filter.mp hb).1
        refine ⟨brow, hb', prow, hp, ?_⟩
        simpa using heq.symm
  · split at hok
    · simp at hok
    · split at hok
      · simp at hok
      · simp only [Except.ok.injEq] at hok
        subst hok
        obtain ⟨prow, hp, hm⟩ := List.mem_flatMap.mp hrow
        obtain ⟨brow, hb, heq⟩ := List.mem_map.mp hm
        have hb' := (List.mem_filter.mp hb).1
        refine ⟨prow, hp, brow, hb', ?_⟩
        simpa using heq.symm

/-- Every row emitted by the nested-loop join is the dict merge of a left
row's dict with a right row's dict, left first. -/
theorem nested_loop_join_mem (l r : Dataset α) (cond : Row α → Row α → Bool)
    (row : Row α) (hrow : row ∈ nested_loop_join l r cond) :
    ∃ p ∈ l.rows, ∃ q ∈ r.rows,
      row = dictMerge (toRow l.cols p) (toRow r.cols q) := by
  unfold nested_loop_join at hrow
  obtain ⟨p, hp, hm⟩ := List.mem_flatMap.mp hrow
  obtain ⟨q, hq, heq⟩ := List.mem_map.mp hm
  exact ⟨p, hp, q, (List.mem_filter.mp hq).1, heq.symm⟩

/-- Counting combined rows carrying key value `v` in the nested-loop
equality join: the per-pair contribution factors into the two sides'
occurrence counts. -/
theorem countP_nested_loop_eq_key (l r : Dataset α) (k : String) (v : α)
    (hr : ∀ row ∈ r.rows, row.length = r.cols.length) (hkr : k ∈ r.cols) :
    (nested_loop_join l r (eqKeyCondition k)).countP
        (fun row => decide (dictLookup row k = some v)) =
      (l.rows.countP fun p => decide (rowVal l.cols p k = some v)) *
      (r.rows.countP fun q => decide (rowVal r.cols q k = some v)) := by
  unfold nested_loop_join
  induction l.rows with
  | nil => simp
  | cons p ps ih =>
    rw [List.flatMap_cons, List.countP_append, List.countP_cons, ih,
      List.countP_map, List.countP_filter]
    have key : ∀ x ∈ r.rows,
        (((fun row => decide (dictLookup row k = some v)) ∘ fun right_row =>
            dictMerge (toRow l.cols p) (toRow r.cols right_row)) x &&
          eqKeyCondition k (toRow l.cols p) (toRow r.cols x)) =
        (decide (rowVal l.cols p k = some v) &&
          decide (rowVal r.cols x k = some v)) := by
      intro x hx
      have h1 : dictLookup (dictMerge (toRow l.cols p) (toRow r.cols x)) k =
          rowVal r.cols x k := by
        rw [dictLookup_dictMerge_right _ _ _
          (by rw [toRow_keys r.cols x (hr x hx)]; exact hkr),
          dictLookup_toRow]
      simp only [Function.comp_apply, eqKeyCondition, dictLookup_toRow, h1,
        ← Bool.decide_and]
      apply decide_eq_decide.mpr
      constructor
      · rintro ⟨hA, hB⟩
        exact ⟨hB.trans hA, hA⟩
      · rintro ⟨hC, hA⟩
        exact ⟨hA, hC.trans hA.symm⟩
    rw [List.countP_congr fun x hx => by rw [key x hx]]
    by_cases hpv : rowVal l.cols p k = some v
    · simp [hpv]
      ring
    · simp [hpv]

/-! ## Claim theorems: the join engine -/

/-- C1: for all datasets `A`, `B` and equality key `k` (present in both
frames, so neither join raises), `hash_join A B k k` with its inner
semantics and the brute-force nested-loop join over the same inputs with
the equality predicate on `k` produce the same multiset of combined rows. -/
theorem hash_join_refines_nested_loop_equality (l r : Dataset α) (k : String)
    (hkl : k ∈ l.cols) (hkr : k ∈ r.cols) :
    ∃ res, hash_join l r k k = .ok res ∧
      (↑res : Multiset (Row α)) =
        ↑(nested_loop_join l r (eqKeyCondition k)) :=
  hash_join_multiset_eq_nested l r k hkl hkr

theorem hash_join_refines_nested_loop_equality_witness :
    ∃ res, hash_join (Dataset.mk ["k"] [[(1 : Int)], [2], [2]])
        (Dataset.mk ["k"] [[2], [3]]) "k" "k" = .ok res ∧
      (↑res : Multiset (Row Int)) =
        ↑(nested_loop_join (Dataset.mk ["k"] [[(1 : Int)], [2], [2]])
          (Dataset.mk ["k"] [[2], [3]]) (eqKeyCondition "k")) :=
  hash_join_refines_nested_loop_equality _ _ "k" (by decide) (by decide)

/-- C2: if key value `v` occurs `m` times in the left frame and `n` times in
the right frame, the inner hash join emits exactly `m * n` combined rows
whose key entry is `v`; and concretely, left key column `[1,2,2]` joined
with right key column `[2,3]` yields exactly the two combined rows for key
2, with keys 1 and 3 contributing no rows. -/
theorem hash_join_cardinality_law :
    (∀ (l r : Dataset α) (k : String) (v : α) (res : List (Row α)),
      (∀ row ∈ r.rows, row.length = r.cols.length) →
      k ∈ l.cols → k ∈ r.cols →
      hash_join l r k k = .ok res →
      res.countP (fun row => decide (dictLookup row k = some v)) =
        (l.rows.countP fun p => decide (rowVal l.cols p k = some v)) *
        (r.rows.countP fun q => decide (rowVal r.cols q k = some v))) ∧
    (hash_join (Dataset.mk ["k"] [[(1 : Int)], [2], [2]])
        (Dataset.mk ["k"] [[2], [3]]) "k" "k" =
          .ok [[("k", 2)], [("k", 2)]] ∧
      ([[("k", (2 : Int))], [("k", 2)]] : List (Row Int)).countP
        (fun row => decide (dictLookup row "k" = some 1)) = 0 ∧
      ([[("k", (2 : Int))], [("k", 2)]] : List (Row Int)).countP
        (fun row => decide (dictLookup row "k" = some 3)) = 0) := by
  constructor
  · intro l r k v res hr hkl hkr hok
    obtain ⟨res', hok', hms⟩ := hash_join_multiset_eq_nested l r k hkl hkr
    rw [hok'] at hok
    injection hok with hres
    subst hres
    have hperm := Multiset.coe_eq_coe.mp hms
    rw [hperm.countP_eq]
    exact countP_nested_loop_eq_key l r k v hr hkr
  · exact ⟨rfl, by decide, by decide⟩

theorem hash_join_cardinality_law_witness :
    ([[("k", (2 : Int))], [("k", 2)]] : List (Row Int)).countP
      (fun row => decide (dictLookup row "k" = some 2)) = 2 * 1 := by
  have h := (hash_join_cardinality_law (α := Int)).1
    (Dataset.mk ["k"] [[(1 : Int)], [2], [2]]) (Dataset.mk ["k"] [[2], [3]])
    "k" 2 [[("k", 2)], [("k", 2)]] (by decide) (by decide) (by decide) rfl
  rw [h]
  decide

/-- C6: every combined row emitted by the hash join lists the caller's left
frame's columns first and the right frame's remaining columns second,
regardless of which side was chosen as the build side. -/
theorem hash_join_preserves_left_right_column_order (l r : Dataset α)
    (lk rk jt : String) (res : List (Row α))
    (hl : wfDataset l) (hr : wfDataset r)
    (hok : hash_join l r lk rk jt = .ok res) :
    ∀ row ∈ res, row.map Prod.fst =
      l.cols ++ r.cols.filter fun c => decide (c ∉ l.cols) := by
  intro row hrow
  obtain ⟨p, hp, q, hq, rfl⟩ := hash_join_mem l r lk rk jt res hok row hrow
  rw [dictMerge_keys, toRow_keys l.cols p (hl.2 p hp),
    toRow_keys r.cols q (hr.2 q hq)]

theorem hash_join_preserves_left_right_column_order_witness :
    ([("k", (2 : Int)), ("x", 99), ("y", 7)] : Row Int).map Prod.fst =
      ["k", "x"] ++ (["k", "x", "y"].filter fun c =>
        decide (c ∉ (["k", "x"] : List String))) := by
  have hok : hash_join (Dataset.mk ["k", "x"] [[(1 : Int), 10], [2, 20]])
      (Dataset.mk ["k", "x", "y"] [[(2 : Int), 99, 7]]) "k" "k" "inner" =
      .ok [[("k", 2), ("x", 99), ("y", 7)]] := rfl
  exact hash_join_preserves_left_right_column_order _ _ "k" "k" "inner" _
    (by decide) (by decide) hok
    [("k", 2), ("x", 99), ("y", 7)] (by decide)

/-- C10: in both join paths, every emitted combined row is the right-biased
Python dict merge of the originating left and right rows, so any column name
the two frames share takes the right frame's value in the combined row (the
left frame's value is discarded). -/
theorem join_shared_columns_right_biased (l r : Dataset α)
    (hr : wfDataset r) :
    (∀ (lk rk jt : String) (res : List (Row α)) (row : Row α),
      hash_join l r lk rk jt = .ok res → row ∈ res →
      ∃ p ∈ l.rows, ∃ q ∈ r.rows,
        row = dictMerge (toRow l.cols p) (toRow r.cols q) ∧
        ∀ c, c ∈ l.cols → c ∈ r.cols →
          dictLookup row c = rowVal r.cols q c) ∧
    (∀ (cond : Row α → Row α → Bool) (row : Row α),
      row ∈ nested_loop_join l r cond →
      ∃ p ∈ l.rows, ∃ q ∈ r.rows,
        row = dictMerge (toRow l.cols p) (toRow r.cols q) ∧
        ∀ c, c ∈ l.cols → c ∈ r.cols →
          dictLookup row c = rowVal r.cols q c) := by
  have step : ∀ p ∈ l.rows, ∀ q ∈ r.rows, ∀ c, c ∈ r.cols →
      dictLookup (dictMerge (toRow l.cols p) (toRow r.cols q)) c =
        rowVal r.cols q c := by
    intro p _ q hq c hc
    rw [dictLookup_dictMerge_right _ _ _
      (by rw [toRow_keys r.cols q (hr.2 q hq)]; exact hc), dictLookup_toRow]
  constructor
  · intro lk rk jt res row hok hrow
    obtain ⟨p, hp, q, hq, rfl⟩ := hash_join_mem l r lk rk jt res hok row hrow
    exact ⟨p, hp, q, hq, rfl, fun c _ hc2 => step p hp q hq c hc2⟩
  · intro cond row hrow
    obtain ⟨p, hp, q, hq, rfl⟩ := nested_loop_join_mem l r cond row hrow
    exact ⟨p, hp, q, hq, rfl, fun c _ hc2 => step p hp q hq c hc2⟩

theorem join_shared_columns_right_biased_witness :
    ∃ p ∈ ([[(1 : Int), 10], [2, 20]] : List (List Int)),
      ∃ q ∈ ([[(2 : Int), 99, 7]] : List (List Int)),
        ([("k", (2 : Int)), ("x", 99), ("y", 7)] : Row Int) =
          dictMerge (toRow ["k", "x"] p) (toRow ["k", "x", "y"] q) ∧
        ∀ c, c ∈ (["k", "x"] : List String) →
          c ∈ (["k", "x", "y"] : List String) →
          dictLookup [("k", (2 : Int)), ("x", 99), ("y", 7)] c =
            rowVal ["k", "x", "y"] q c := by
  have hok : hash_join (Dataset.mk ["k", "x"] [[(1 : Int), 10], [2, 20]])
      (Dataset.mk ["k", "x", "y"] [[(2 : Int), 99, 7]]) "k" "k" "inner" =
      .ok [[("k", 2), ("x", 99), ("y", 7)]] := rfl
  exact (join_shared_columns_right_biased
    (Dataset.mk ["k", "x"] [[(1 : Int), 10], [2, 20]])
    (Dataset.mk ["k", "x", "y"] [[(2 : Int), 99, 7]]) (by decide)).1
    "k" "k" "inner" [[("k", 2), ("x", 99), ("y", 7)]]
    [("k", 2), ("x", 99), ("y", 7)] hok (by decide)

/-- C7 counterexample: the left frame lacks the declared key column `k`, yet
the join does not fail — the empty side is chosen for building, its rows are
never iterated, and the call silently returns an empty result. -/
theorem hash_join_missing_key_empty_side_returns_silently :
    "k" ∉ (Dataset.mk ["a"] ([] : List (List Int))).cols ∧
    hash_join (Dataset.mk ["a"] ([] : List (List Int)))
      (Dataset.mk ["k"] [[(7 : Int)]]) "k" "k" = .ok [] :=
  ⟨by decide, rfl⟩

/-- C7 (amended): if the frame whose declared key column is absent contains
at least one row, the join call fails with a KeyError (the SchemaError of
the spec) instead of returning a result; an empty frame missing its key
column silently yields an empty join instead. -/
theorem hash_join_missing_key_on_nonempty_side_errors (l r : Dataset α)
    (lk rk jt : String)
    (h : (lk ∉ l.cols ∧ l.rows ≠ []) ∨ (rk ∉ r.cols ∧ r.rows ≠ [])) :
    ∃ msg, hash_join l r lk rk jt = .error msg := by
  unfold hash_join hash_join_build_probe
  by_cases hsz : l.rows.length ≤ r.rows.length
  · rw [if_pos hsz]
    rcases h with ⟨h1, h2⟩ | ⟨h1, h2⟩
    · exact ⟨"KeyError", by rw [if_pos ⟨h2, h1⟩]⟩
    · by_cases g1 : l.rows ≠ [] ∧ lk ∉ l.cols
      · exact ⟨"KeyError", by rw [if_pos g1]⟩
      · exact ⟨"KeyError", by rw [if_neg g1, if_pos ⟨h2, h1⟩]⟩
  · rw [if_neg hsz]
    rcases h with ⟨h1, h2⟩ | ⟨h1, h2⟩
    · by_cases g1 : r.rows ≠ [] ∧ rk ∉ r.cols
      · exact ⟨"KeyError", by rw [if_pos g1]⟩
      · exact ⟨"KeyError", by rw [if_neg g1, if_pos ⟨h2, h1⟩]⟩
    · exact ⟨"KeyError", by rw [if_pos ⟨h2, h1⟩]⟩

theorem hash_join_missing_key_on_nonempty_side_errors_witness :
    ∃ msg, hash_join (Dataset.mk ["a"] [[(1 : Int)]])
      (Dataset.mk ["k"] [[(7 : Int)]]) "k" "k" = .error msg :=
  hash_join_missing_key_on_nonempty_side_errors _ _ "k" "k" "inner"
    (Or.inl ⟨by decide, by decide⟩)

/-! ## Claim theorems: the concurrent batch loader -/

/-- C3: every batch-load call converts a failure of any step (connection,
statement execution, commit) into a `failed` LoadResult with zero rows and
an error detail instead of raising, and returns a `success` LoadResult
exactly when every step succeeded. -/
theorem batch_loaders_convert_failures_to_results :
    ∀ (store : StoreOutcome) (table_name : String) (tid : Nat),
      (((load_dimension_batch store table_name tid).1.status = "success" ∨
        ((load_dimension_batch store table_name tid).1.status = "failed" ∧
          (load_dimension_batch store table_name tid).1.rows_loaded = 0 ∧
          (load_dimension_batch store table_name tid).1.error ≠ none)) ∧
        ((load_dimension_batch store table_name tid).1.status = "success" ↔
          store.connectErr = none ∧ table_name ∈ dimension_tables ∧
          store.executeErr = none ∧ store.commitErr = none)) ∧
      (((load_fact_batch store tid).1.status = "success" ∨
        ((load_fact_batch store tid).1.status = "failed" ∧
          (load_fact_batch store tid).1.rows_loaded = 0 ∧
          (load_fact_batch store tid).1.error ≠ none)) ∧
        ((load_fact_batch store tid).1.status = "success" ↔
          store.connectErr = none ∧ store.executeErr = none ∧
          store.commitErr = none)) := by
  intro store table tid
  obtain ⟨ce, ee, cme, rc⟩ := store
  cases ce <;> cases ee <;> cases cme <;>
    by_cases h : table ∈ dimension_tables <;>
    simp [load_dimension_batch, load_fact_batch, h]

/-- C4 counterexample: with the connection established and the statement
execution failing, the call returns the `failed` LoadResult without ever
closing the connection it acquired (there is no `finally`). -/
theorem load_dimension_batch_leaks_connection_on_error :
    (load_dimension_batch
      (StoreOutcome.mk none (some "deadlock") none 0) "Customer_Dim" 0).2 =
        true ∧
    (load_dimension_batch
      (StoreOutcome.mk none (some "deadlock") none 0) "Customer_Dim" 0).1.status =
        "failed" :=
  ⟨rfl, rfl⟩

/-- C4 (amended): the batch loaders close their connection on the success
path only; whenever a failure occurs after the connection was acquired the
`except` path returns the failed LoadResult with the connection left open,
and when the connection itself could not be acquired there is nothing to
release. -/
theorem connection_left_open_iff_failure_after_connect :
    ∀ (store : StoreOutcome) (table_name : String) (tid : Nat),
      ((load_dimension_batch store table_name tid).2 = true ↔
        store.connectErr = none ∧
        (load_dimension_batch store table_name tid).1.status = "failed") ∧
      ((load_fact_batch store tid).2 = true ↔
        store.connectErr = none ∧
        (load_fact_batch store tid).1.status = "failed") := by
  intro store table tid
  obtain ⟨ce, ee, cme, rc⟩ := store
  cases ce <;> cases ee <;> cases cme <;>
    by_cases h : table ∈ dimension_tables <;>
    simp [load_dimension_batch, load_fact_batch, h]

/-! ## The batch partitioner -/

theorem split_batches_nil (bsz : Nat) (h : 0 < bsz) :
    split_batches ([] : List β) bsz = [] := by
  have h0 : (bsz - 1) / bsz = 0 := Nat.div_eq_of_lt (by omega)
  simp [split_batches, h0]

theorem split_batches_cons (data : List β) (bsz : Nat) (h0 : 0 < bsz)
    (hne : data ≠ []) :
    split_batches data bsz =
      data.take bsz :: split_batches (data.drop bsz) bsz := by
  have hlen : 0 < data.length := List.length_pos.mpr hne
  have hK : (data.length + bsz - 1) / bsz =
      ((data.drop bsz).length + bsz - 1) / bsz + 1 := by
    rw [List.length_drop]
    by_cases hle : data.length ≤ bsz
    · have h1 : (data.length + bsz - 1) / bsz = 1 :=
        Nat.div_eq_of_lt_le (by omega) (by omega)
      have h2 : (data.length - bsz + bsz - 1) / bsz = 0 :=
        Nat.div_eq_of_lt (by omega)
      omega
    · have heq : data.length + bsz - 1 =
          (data.length - bsz + bsz - 1) + bsz := by omega
      rw [heq, Nat.add_div_right _ h0]
  unfold split_batches
  rw [hK, List.range_succ_eq_map, List.map_cons, List.map_map]
  congr 1
  · simp
  · apply List.map_congr_left
    intro i _
    simp only [Function.comp_apply]
    rw [List.drop_drop]
    congr 2
    rw [Nat.succ_mul]
    omega

theorem split_batches_flatten (bsz : Nat) (h0 : 0 < bsz) :
    ∀ data : List β, (split_batches data bsz).flatten = data := by
  suffices H : ∀ (n : Nat) (data : List β), data.length = n →
      (split_batches data bsz).flatten = data from
    fun data => H data.length data rfl
  intro n
  induction n using Nat.strong_induction_on with
  | _ n ih =>
    intro data hn
    by_cases hd : data = []
    · subst hd
      rw [split_batches_nil bsz h0]
      rfl
    · rw [split_batches_cons data bsz h0 hd, List.flatten_cons]
      have hlt : (data.drop bsz).length < n := by
        rw [List.length_drop]
        have := List.length_pos.mpr hd
        omega
      rw [ih _ (hn ▸ hlt) _ rfl, List.take_append_drop]

theorem split_batches_sum_length (data : List β) (bsz : Nat) (h0 : 0 < bsz) :
    ((split_batches data bsz).map fun b => (b.length : Int)).sum =
      (data.length : Int) := by
  have hlen : ((split_batches data bsz).map List.length).sum = data.length := by
    rw [← List.length_flatten, split_batches_flatten bsz h0 data]
  calc ((split_batches data bsz).map fun b => (b.length : Int)).sum
      = (((split_batches data bsz).map List.length).map
          (fun n : Nat => (n : Int))).sum := by rw [List.map_map]; rfl
    _ = ((((split_batches data bsz).map List.length).sum : Nat) : Int) :=
        (Nat.cast_list_sum _).symm
    _ = (data.length : Int) := by rw [hlen]

/-- C8: for every dataset and positive batch size `s`, the partitioning step
of `parallel_load` yields `⌈n/s⌉` batches, batch `i` being exactly the rows
with indices in `[i*s, (i+1)*s)` in original order; every non-final batch
has length `s`, and an empty dataset yields zero batches. -/
theorem split_batches_spec (data : List β) (s : Nat) (hs : 0 < s) :
    (split_batches data s).length = (data.length + s - 1) / s ∧
    (∀ i, i < (split_batches data s).length →
      (split_batches data s)[i]? = some ((data.drop (i * s)).take s)) ∧
    (∀ i, i + 1 < (split_batches data s).length →
      ((data.drop (i * s)).take s).length = s) ∧
    (data = [] → split_batches data s = []) := by
  refine ⟨by simp [split_batches], ?_, ?_, fun h => by
    rw [h]; exact split_batches_nil s hs⟩
  · intro i hi
    simp only [split_batches, List.length_map, List.length_range] at hi
    simp only [split_batches, List.getElem?_map,
      List.getElem?_range hi, Option.map_some']
  · intro i hi
    simp only [split_batches, List.length_map, List.length_range] at hi
    have h2 : (i + 2) * s ≤ data.length + s - 1 :=
      (Nat.le_div_iff_mul_le hs).mp (by omega)
    have h3 : (i + 2) * s = i * s + s + s := by ring
    rw [h3] at h2
    rw [List.length_take, List.length_drop]
    omega

theorem split_batches_spec_witness :
    (split_batches ([0, 1, 2, 3, 4] : List Nat) 2).length = 3 ∧
    (split_batches ([0, 1, 2, 3, 4] : List Nat) 2)[1]? =
      some ((([0, 1, 2, 3, 4] : List Nat).drop (1 * 2)).take 2) := by
  have h := split_batches_spec ([0, 1, 2, 3, 4] : List Nat) 2 (by decide)
  exact ⟨h.1, h.2.1 1 (by decide)⟩

/-- The rows-loaded total of the per-batch results, when every batch's store
interaction succeeds and reports the batch's row count. -/
theorem sum_rows_loaded_enumFrom (table : String)
    (outcomes : Nat → StoreOutcome)
    (htab : table = "Sales_Fact" ∨ table ∈ dimension_tables) :
    ∀ (L : List (List β)) (n0 : Nat),
      (∀ i, i < L.length → (outcomes (n0 + i)).connectErr = none ∧
        (outcomes (n0 + i)).executeErr = none ∧
        (outcomes (n0 + i)).commitErr = none ∧
        (outcomes (n0 + i)).rowcount = ((L.getD i []).length : Int)) →
      (((L.enumFrom n0).map fun ib =>
          if table = "Sales_Fact" then (load_fact_batch (outcomes ib.1) ib.1).1
          else (load_dimension_batch (outcomes ib.1) table ib.1).1).map
        fun res => res.rows_loaded).sum =
      (L.map fun b => (b.length : Int)).sum := by
  intro L
  induction L with
  | nil => intro n0 h; simp
  | cons b L ih =>
    intro n0 h
    rw [List.enumFrom_cons]
    simp only [List.map_cons, List.sum_cons]
    have h0 := h 0 (by simp)
    rw [Nat.add_zero] at h0
    have hhead :
        (if table = "Sales_Fact" then (load_fact_batch (outcomes n0) n0).1
          else (load_dimension_batch (outcomes n0) table n0).1).rows_loaded =
        (b.length : Int) := by
      have hrc : (outcomes n0).rowcount = (b.length : Int) := by
        simpa using h0.2.2.2
      by_cases hfact : table = "Sales_Fact"
      · rw [if_pos hfact]
        simp [load_fact_batch, h0.1, h0.2.1, h0.2.2.1, hrc]
      · rw [if_neg hfact]
        have hdim : table ∈ dimension_tables := htab.resolve_left hfact
        simp [load_dimension_batch, h0.1, h0.2.1, h0.2.2.1, hrc, hdim]
    rw [hhead, ih (n0 + 1)]
    intro i hi
    have hh := h (i + 1) (by simpa using Nat.succ_lt_succ hi)
    rw [show n0 + (i + 1) = n0 + 1 + i from by omega] at hh
    simpa using hh

/-- C5 (amended): an invocation of `parallel_load` with no batch failures
and the store reporting per-batch row counts equal to the rows submitted
reports, as the total of its summary, the sum of the rows loaded by the
results already accumulated on the loader plus the number of rows of the
input dataset; when the accumulated results list is empty (the loader's
first invocation) this is exactly the input's row count. -/
theorem parallel_load_summary_conservation (data : List β) (bsz : Nat)
    (prior : List LoadResult) (table : String)
    (outcomes : Nat → StoreOutcome)
    (hbs : 0 < bsz)
    (htab : table = "Sales_Fact" ∨ table ∈ dimension_tables)
    (hout : ∀ i, i < (split_batches data bsz).length →
      (outcomes i).connectErr = none ∧ (outcomes i).executeErr = none ∧
      (outcomes i).commitErr = none ∧
      (outcomes i).rowcount =
        (((split_batches data bsz).getD i []).length : Int)) :
    (parallel_load prior table data bsz outcomes).2.1 =
      (prior.map fun res => res.rows_loaded).sum + (data.length : Int) := by
  unfold parallel_load
  simp only [List.map_append, List.sum_append]
  congr 1
  rw [List.enum, sum_rows_loaded_enumFrom table outcomes htab
    (split_batches data bsz) 0 (by simpa using hout)]
  exact split_batches_sum_length data bsz hbs

theorem parallel_load_summary_conservation_witness :
    (parallel_load [] "Store_Dim" ([0, 1, 2] : List Nat) 2
        (fun i => StoreOutcome.mk none none none
          (if i = 0 then 2 else 1))).2.1 =
      (([] : List LoadResult).map fun res => res.rows_loaded).sum + 3 := by
  have h := parallel_load_summary_conservation ([0, 1, 2] : List Nat) 2 []
    "Store_Dim" (fun i => StoreOutcome.mk none none none
      (if i = 0 then 2 else 1))
    (by decide) (Or.inr (by decide)) ?_
  · exact h
  · intro i hi
    have hi2 : i = 0 ∨ i = 1 := by
      simp [split_batches] at hi
      omega
    rcases hi2 with rfl | rfl <;> exact (by decide)

/-- C5 counterexample: the loader's results list is never cleared, so a
second invocation's summary also sums the results of earlier invocations:
here an invocation over 3 rows with no batch failures (and the store
reporting exactly the submitted row counts) reports a total of 8, not 3,
because a previous invocation had already loaded 5 rows. -/
theorem parallel_load_summary_counts_prior_results :
    (parallel_load [LoadResult.mk 9 "Store_Dim" 5 "success" none] "Store_Dim"
        ([0, 1, 2] : List Nat) 2
        (fun i => StoreOutcome.mk none none none
          (if i = 0 then 2 else 1))).2.1 = 8 ∧
    (parallel_load [LoadResult.mk 9 "Store_Dim" 5 "success" none] "Store_Dim"
        ([0, 1, 2] : List Nat) 2
        (fun i => StoreOutcome.mk none none none
          (if i = 0 then 2 else 1))).2.2 = 0 ∧
    (8 : Int) ≠ 3 :=
  ⟨rfl, rfl, by decide⟩

/-! ## Claim theorems: the date dimension -/

/-- C9: for every start/end day pair, `generate_date_dimension` produces one
record per day of the inclusive range, with `Season` equal to Winter on
months Dec-Feb, Spring on Mar-May, Summer on Jun-Aug, Fall on Sep-Nov, and
`Weekday_Weekend` equal to Weekend exactly when the day-of-week index is at
least 5; in particular the range 2024-02-28..2024-03-01 yields 3 records
with Seasons Winter, Winter, Spring, all on weekdays (Wed, Thu, Fri). -/
theorem generate_date_dimension_one_row_per_day :
    (∀ s e : Int,
      (generate_date_dimension s e).length = (e + 1 - s).toNat ∧
      ∀ (i : Nat) (row : DateRow),
        (generate_date_dimension s e)[i]? = some row →
        row.Date_ID = i + 1 ∧
        row.Full_Date = s + i ∧
        ((row.Month = 12 ∨ row.Month = 1 ∨ row.Month = 2) →
          row.Season = "Winter") ∧
        ((row.Month = 3 ∨ row.Month = 4 ∨ row.Month = 5) →
          row.Season = "Spring") ∧
        ((row.Month = 6 ∨ row.Month = 7 ∨ row.Month = 8) →
          row.Season = "Summer") ∧
        ((row.Month = 9 ∨ row.Month = 10 ∨ row.Month = 11) →
          row.Season = "Fall") ∧
        (row.Weekday_Weekend = "Weekend" ↔ dayOfWeek row.Full_Date ≥ 5)) ∧
    ((generate_date_dimension (daysFromCivil 2024 2 28)
        (daysFromCivil 2024 3 1)).map
      (fun row => (row.Season, row.Weekday_Weekend)) =
      [("Winter", "Weekday"), ("Winter", "Weekday"), ("Spring", "Weekday")]) := by
  constructor
  · intro s e
    constructor
    · simp [generate_date_dimension]
    · intro i row hrow
      simp only [generate_date_dimension, List.getElem?_map] at hrow
      obtain ⟨j, hj, hfrow⟩ := Option.map_eq_some'.mp hrow
      have hiN : i < (List.range (e + 1 - s).toNat).length := by
        by_contra hge
        rw [List.getElem?_eq_none (by omega)] at hj
        exact Option.noConfusion hj
      rw [List.getElem?_range (by simpa using hiN)] at hj
      injection hj with hj'
      cases hj'
      subst hfrow
      rcases hcm : civilFromDays (s + (i : Int)) with ⟨y, m, d⟩
      refine ⟨?_, ?_, ?_, ?_, ?_, ?_, ?_⟩
      · simp [hcm]
      · simp [hcm]
      · rintro (hm | hm | hm) <;> simp_all [hcm]
      · rintro (hm | hm | hm) <;> simp_all [hcm]
      · rintro (hm | hm | hm) <;> simp_all [hcm]
      · rintro (hm | hm | hm) <;> simp_all [hcm]
      · by_cases hw : dayOfWeek (s + (i : Int)) ≥ 5 <;> simp [hcm, hw]
  · decide

theorem generate_date_dimension_one_row_per_day_witness :
    ∃ row : DateRow, (generate_date_dimension 0 0)[0]? = some row ∧
      row.Full_Date = 0 ∧ row.Season = "Winter" ∧
      row.Weekday_Weekend = "Weekday" := by
  have h0 : (generate_date_dimension 0 0)[0]? =
      some (DateRow.mk 1 0 1 1 "January" "Q1" 1970 "Weekday" "Winter") := by
    decide
  have h := (generate_date_dimension_one_row_per_day.1 0 0).2 0 _ h0
  exact ⟨_, h0, h.2.1, h.2.2.1 (Or.inr (Or.inl (by decide))), by decide⟩
